import Mathlib

/- Shallow embedding of the slurm_utils repository.

   Conventions:
   * Python strings are modeled as `List Char`.
   * POSIX timestamps (`time.time()`) are modeled as `Nat` seconds.  All
     subtractions `now - t` in the source compare a later clock reading with an
     earlier one, and the truncated `Nat` subtraction agrees with the float
     subtraction on every comparison `now - t > threshold` that the source
     performs (a negative float difference and a truncated `0` both fail the
     strict comparison against a nonnegative threshold).
   * External effects (file reads, subprocess launches) are modeled by explicit
     parameters describing their observable outcome.
   * Python dictionaries keyed by job id are modeled as functions
     `Nat -> Option _`. -/

namespace SlurmUtils

/-- `isPre pat s` is true iff `pat` is a prefix of `s`; the building block for
Python's substring operations (`in`, `find`, `replace`). -/
def isPre : List Char → List Char → Bool
  | [], _ => true
  | _ :: _, [] => false
  | a :: as_, b :: bs => a == b && isPre as_ bs

/-- Python substring test `pat in s`. -/
def hasSub (pat : List Char) : List Char → Bool
  | [] => isPre pat []
  | c :: cs => isPre pat (c :: cs) || hasSub pat cs

/-- Python `s.replace(pat, rep)`: replaces every leftmost, non-overlapping
occurrence of `pat` (assumed nonempty in all uses in this repository). -/
def pyReplace (pat rep : List Char) : List Char → List Char
  | [] => []
  | c :: cs =>
    if isPre pat (c :: cs) then rep ++ pyReplace pat rep (cs.drop (pat.length - 1))
    else c :: pyReplace pat rep cs
termination_by s => s.length
decreasing_by
  · simp only [List.length_cons, List.length_drop]
    omega
  · simp only [List.length_cons]
    omega

/-- Length bound used for termination of the splitting functions. -/
theorem dropWhileLenLe (p : Char → Bool) (l : List Char) :
    (l.dropWhile p).length ≤ l.length := by
  induction l with
  | nil => simp [List.dropWhile]
  | cons c cs ih =>
    by_cases h : p c = true
    · simp only [List.dropWhile, h, List.length_cons]
      omega
    · simp only [List.dropWhile, h, List.length_cons]
      omega

/-- The whitespace characters recognized by Python `str.split()` / `str.strip()`:
exactly the code points for which CPython `str.isspace()` is true, i.e.
`\t \n \v \f \r`, the ASCII separators `\x1c`-`\x1f`, the space, `\x85` (NEL),
`\xa0` (NBSP), and the Unicode space separators. -/
def isPySpace (c : Char) : Bool :=
  (0x09 ≤ c.toNat && c.toNat ≤ 0x0d) || (0x1c ≤ c.toNat && c.toNat ≤ 0x20) ||
    c.toNat == 0x85 || c.toNat == 0xa0 || c.toNat == 0x1680 ||
    (0x2000 ≤ c.toNat && c.toNat ≤ 0x200a) || c.toNat == 0x2028 ||
    c.toNat == 0x2029 || c.toNat == 0x202f || c.toNat == 0x205f ||
    c.toNat == 0x3000

/-- Prepend a character to the first chunk of a chunk list (helper for the
splitting functions below). -/
def consF (c : Char) : List (List Char) → List (List Char)
  | [] => [[c]]
  | f :: fs => (c :: f) :: fs

/-- Python `s.split()` before dropping empty pieces: cut at every maximal run of
whitespace.  The resulting list always has the (possibly empty) first and last
pieces; `pySplit` filters the empties away, as Python does. -/
def splitWs : List Char → List (List Char)
  | [] => [[]]
  | c :: cs =>
    if isPySpace c then [] :: splitWs (cs.dropWhile isPySpace)
    else consF c (splitWs cs)
termination_by s => s.length
decreasing_by
  · simp only [List.length_cons]
    have := dropWhileLenLe isPySpace cs
    omega
  · simp only [List.length_cons]
    omega

/-- Python `s.split()` (no arguments): tokens separated by whitespace runs. -/
def pySplit (s : List Char) : List (List Char) :=
  (splitWs s).filter (fun t => !t.isEmpty)

/-- Python `s.split("\n")`. -/
def splitNl : List Char → List (List Char)
  | [] => [[]]
  | c :: cs => if c == '\n' then [] :: splitNl cs else consF c (splitNl cs)

/-- Python `s.strip()`. -/
def pyStrip (s : List Char) : List Char :=
  ((s.dropWhile isPySpace).reverse.dropWhile isPySpace).reverse

/-- Python `s.find(sub)`: index of the first occurrence, as an `Option`. -/
def findIdx? (sub : List Char) : List Char → Option Nat
  | [] => if isPre sub [] then some 0 else none
  | c :: cs => if isPre sub (c :: cs) then some 0 else (findIdx? sub cs).map (· + 1)

/-- Python `s.find(sub, start)`: first index `≥ start` holding `sub`, else -1. -/
def pyFind (sub s : List Char) (start : Int) : Int :=
  match findIdx? sub (s.drop start.toNat) with
  | some i => start.toNat + i
  | none => -1

/-- Python slicing `s[a:b]` with full negative-index semantics. -/
def pySlice (s : List Char) (a b : Int) : List Char :=
  let n : Int := s.length
  let norm : Int → Nat := fun i => (if i < 0 then max (n + i) 0 else min i n).toNat
  (s.take (norm b)).drop (norm a)

/- ------------------------------------------------------------------ -/
/- monitor.py                                                          -/
/- ------------------------------------------------------------------ -/

/-- `DUMMY_VALUE` from monitor.py. -/
def dummyValue : List Char := "4123kjhgkjhg156298".data

/-- `COOLDOWN_SECONDS` from monitor.py. -/
def COOLDOWN_SECONDS : Nat := 120

/-- The loop body of `line_to_list` from monitor.py, building `final_line`.
`prevSpace` records whether the previous character was a space (the
`idx > 0 and line[idx - 1] == " "` test; Python's `or` short-circuits, so
`line[idx + 1]` is only evaluated when that test fails, and it raises
IndexError - modeled as `none` - exactly when the current character is the
last one). -/
def buildFinalLine (prevSpace : Bool) : List Char → Option (List Char)
  | [] => some []
  | c :: cs =>
    if c = ' ' then
      if prevSpace then (buildFinalLine true cs).map (fun r => ' ' :: r)
      else
        match cs with
        | [] => none
        | c2 :: _ =>
          if c2 = ' ' then (buildFinalLine true cs).map (fun r => ' ' :: r)
          else (buildFinalLine true cs).map (fun r => dummyValue ++ r)
    else (buildFinalLine false cs).map (fun r => c :: r)

/-- `line_to_list` from monitor.py.  `none` models the IndexError raised on a
trailing single space. -/
def line_to_list (line : List Char) : Option (List (List Char)) :=
  (buildFinalLine false line).map
    (fun finalLine => (pySplit finalLine).map (fun t => pyReplace dummyValue [' '] t))

/-- The five column headers searched for by `get_squeue_data`. -/
def squeueCols : List (List Char) :=
  ["JOBID".data, "PARTITION".data, "NAME".data, "ST".data, "NODELIST(REASON)".data]

/-- The `for col in [...]` loop of `get_squeue_data`: successive
`header.find(col, start)` results, with `start = pos + 1` after each. -/
def colPosAux (header : List Char) : List (List Char) → Int → List Int
  | [], _ => []
  | col :: rest, start =>
    let pos := pyFind col header start
    pos :: colPosAux header rest (pos + 1)

/-- `col_positions` of `get_squeue_data`, including the appended header length. -/
def colPositions (header : List Char) : List Int :=
  colPosAux header squeueCols 0 ++ [(header.length : Int)]

/-- The inner loop of `get_squeue_data`: slice one line at consecutive column
positions, stripping each piece. -/
def parseRow (positions : List Int) (line : List Char) : List (List Char) :=
  match positions with
  | p1 :: p2 :: rest => pyStrip (pySlice line p1 p2) :: parseRow (p2 :: rest) line
  | _ => []

/-- A parsed squeue table: one list of five stripped cells per data line
(the pandas DataFrame of the source, as its rows). -/
abbrev SqueueTable := List (List (List Char))

/-- `get_squeue_data` from monitor.py as a function of the captured stdout of
the `squeue` subprocess (`subprocess.run` is called without `check=True`, so a
non-zero exit status produces no exception, only whatever stdout was
captured). -/
def get_squeue_data (stdout : List Char) : SqueueTable :=
  let lines := splitNl (pyStrip stdout)
  let header := lines.headD []
  let positions := colPositions header
  (lines.drop 1).map (parseRow positions)

/-- The mutable state of a `SlurmMonitor`. -/
structure MonState where
  last_peek : Nat
  latest_info : Option SqueueTable
  cooldown_seconds : Nat
deriving DecidableEq

/-- `SlurmMonitor.__init__`. -/
def initMonState (cooldown : Nat) : MonState :=
  { last_peek := 0, latest_info := none, cooldown_seconds := cooldown }

/-- `SlurmMonitor.refresh`.  `queryOut = some out` means the squeue subprocess
launched and its captured stdout was `out` (whatever its exit status);
`queryOut = none` means the launch itself raised (e.g. FileNotFoundError),
which the source does not catch - modeled as `Except.error` carrying the state
at the moment the exception escapes (`last_peek` has already been updated,
`latest_info` has not). -/
def refresh (s : MonState) (now : Nat) (force : Bool) (queryOut : Option (List Char)) :
    Except MonState (Bool × MonState) :=
  if force || decide (now - s.last_peek > s.cooldown_seconds) then
    match queryOut with
    | none => .error { s with last_peek := now }
    | some out =>
      .ok (true, { last_peek := now, latest_info := some (get_squeue_data out),
                   cooldown_seconds := s.cooldown_seconds })
  else .ok (false, s)

/- ------------------------------------------------------------------ -/
/- kill_stuck_jobs.py                                                  -/
/- ------------------------------------------------------------------ -/

/-- The error marker searched for in log contents (`"Error" in ...`). -/
def errorMarker : List Char := "Error".data

/-- The replacement written back (`.replace("Error", "ERROR")`). -/
def errorMarkerUpper : List Char := "ERROR".data

/-- The marker rewrite `error_file_contents.replace("Error", "ERROR")`. -/
def rewriteError (s : List Char) : List Char :=
  pyReplace errorMarker errorMarkerUpper s

/-- `StuckJobKiller._get_error_line`: the first line containing the marker
(`none` models the ValueError raised when no line contains it; the caller
guards with `"Error" in contents`). -/
def getErrorLine (contents : List Char) : Option (List Char) :=
  (splitNl contents).find? (fun line => hasSub errorMarker line)

/-- `ErrorMonitor._error_contents`: job id ↦ (last observation timestamp,
last seen contents). -/
abbrev Memory := Nat → Option (Nat × List Char)

/-- The default `stale_time` of `ErrorMonitor` (spec: 30 minutes). -/
def defaultStaleTime : Nat := 60 * 30

/-- `ErrorMonitor.is_stale`: returns the staleness verdict and the updated
`_error_contents` dictionary. -/
def is_stale (staleTime : Nat) (m : Memory) (jobId : Nat) (contents : List Char)
    (now : Nat) : Bool × Memory :=
  match m jobId with
  | none => (false, fun k => if k = jobId then some (now, contents) else m k)
  | some (lastTime, lastContents) =>
    if lastContents ≠ contents then
      (false, fun k => if k = jobId then some (now, contents) else m k)
    else if now - lastTime > staleTime then (true, m)
    else (false, m)

/-- `ErrorMonitor.purge_inactive`: keep only the entries whose job id is in the
given list. -/
def purge_inactive (m : Memory) (jobIds : List Nat) : Memory :=
  fun j => if j ∈ jobIds then m j else none

/-- The tri-state per-tick outcome of the liveness detector (the spec's
`Healthy / Errored(markerLine) / Stalled`). -/
inductive Classification where
  | healthy : Classification
  | errored : Option (List Char) → Classification
  | stalled : Classification
deriving DecidableEq

/-- The detector part of `StuckJobKiller.poll`'s per-job body: the
`if "Error" in contents / elif is_stale / else` cascade, together with the
resulting `_error_contents` state (the errored branch never calls `is_stale`,
so it leaves the memory untouched). -/
def classify (staleTime : Nat) (m : Memory) (jobId : Nat) (contents : List Char)
    (now : Nat) : Classification × Memory :=
  if hasSub errorMarker contents then (.errored (getErrorLine contents), m)
  else
    match is_stale staleTime m jobId contents now with
    | (true, m') => (.stalled, m')
    | (false, m') => (.healthy, m')

/-- Externally visible actions performed by `StuckJobKiller.poll` for one job.
`notify saysNotResubmitted` is the printed report; its flag records whether the
message text claims the job was NOT resubmitted (which the source prints
exactly when `self._first_time` is set). -/
inductive Action where
  | writeLog : List Char → Action
  | scancel : Nat → Action
  | sbatch : Action
  | removeRegistryFile : Action
  | notify : Bool → Action
deriving DecidableEq

/-- The per-job body of `StuckJobKiller.poll` (error detection, marker rewrite,
staleness check, cancel / resubmit / notification), returning the list of
actions issued in order and the updated `_error_contents`.  Note that
`first_time` influences only the text of the notification - the cancel and
resubmit calls are unconditional whenever `error_occurred` is set. -/
def pollJobStep (firstTime : Bool) (active : List Nat) (jobId : Nat)
    (contents : List Char) (m : Memory) (now : Nat) : List Action × Memory :=
  if hasSub errorMarker contents then
    (Action.writeLog (rewriteError contents) ::
      ((if jobId ∈ active then [Action.scancel jobId] else []) ++
        [Action.sbatch, Action.notify firstTime]), m)
  else
    match is_stale defaultStaleTime m jobId contents now with
    | (true, m') =>
      (Action.removeRegistryFile ::
        ((if jobId ∈ active then [Action.scancel jobId] else []) ++
          [Action.sbatch, Action.notify firstTime]), m')
    | (false, m') => ([], m')

/-- One full `StuckJobKiller.poll` tick as it affects `_error_contents`:
purge the inactive ids first, then run the per-job body over the registered
jobs (the source iterates them in descending job id order; the fold takes the
list as given). -/
def pollTick (firstTime : Bool) (m : Memory) (active : List Nat)
    (jobs : List (Nat × List Char)) (now : Nat) : Memory :=
  jobs.foldl (fun acc jc => (pollJobStep firstTime active jc.1 jc.2 acc now).2)
    (purge_inactive m active)

/- ------------------------------------------------------------------ -/
/- resubmit_stuck_jobs.py                                              -/
/- ------------------------------------------------------------------ -/

/-- `STALE_TIME` from resubmit_stuck_jobs.py. -/
def STALE_TIME : Nat := 30 * 60

/-- One registration record (the json file written by `register_job`). -/
structure RegEntry where
  output_file : List Char
  sbatch_file : List Char
deriving DecidableEq

/-- The registration directory contents: job id ↦ registration record. -/
abbrev Registry := Nat → Option RegEntry

/-- `file_contents_memory`: job id ↦ (last seen content, last modified time). -/
abbrev Memory2 := Nat → Option (List Char × Nat)

/-- `get_current_output_file_contents`: both failure modes (unreadable
registration json, unreadable output file) fall back to the empty string. -/
def get_current_output_file_contents (regRead : Option RegEntry)
    (outRead : Option (List Char)) : List Char :=
  match regRead with
  | none => []
  | some _ => outRead.getD []

/-- The per-job rule inside `update_memory`: seed a missing entry with `now`,
replace a changed entry with `now`, keep an unchanged entry verbatim. -/
def update_memory_entry (m : Memory2) (jobId : Nat) (content : List Char)
    (now : Nat) : List Char × Nat :=
  match m jobId with
  | none => (content, now)
  | some (c, t) => if content ≠ c then (content, now) else (c, t)

/-- `update_memory`: rebuild the memory over exactly the job ids present in the
registration directory (given here with the content observed for each),
dropping every other key. -/
def update_memory (m : Memory2) (jobs : List (Nat × List Char)) (now : Nat) :
    Memory2 :=
  fun k =>
    match jobs.lookup k with
    | some content => some (update_memory_entry m k content now)
    | none => none

/-- `job_has_stalled` (the caller guarantees the id is present; a missing id
would raise KeyError and is modeled as `false`, unreachable from
`poll_jobs`). -/
def job_has_stalled (m : Memory2) (jobId : Nat) (now : Nat) : Bool :=
  match m jobId with
  | some (_, lastModified) => decide (now - lastModified > STALE_TIME)
  | none => false

/-- Outcome of a `subprocess.run(...)` call (no `check=True` anywhere in
poll_jobs): either the process launched and completed with some exit status -
which the source never inspects - or the launch itself raised (OSError /
SubprocessError, both caught by the surrounding `except`). -/
inductive ProcResult where
  | completed : Int → ProcResult
  | raised : ProcResult
deriving DecidableEq

/-- Deleting one registration file. -/
def removeEntry (reg : Registry) (jobId : Nat) : Registry :=
  fun k => if k = jobId then none else reg k

/-- The `if job_is_dead:` block of `poll_jobs` for one job: read the
registration json, `subprocess.run(["scancel", ...])`,
`subprocess.run(["sbatch", ...])`, then `os.remove` the registration file; any
IOError / SubprocessError along the way is caught and leaves the registry
as it was (`removeRaises` models `os.remove` itself raising, in which case the
file also survives).  Exit statuses of the launched commands are never
checked. -/
def handleDeadJob (reg : Registry) (jobId : Nat) (readRes : Option RegEntry)
    (cancelRes resubmitRes : ProcResult) (removeRaises : Bool) : Registry :=
  match readRes with
  | none => reg
  | some _ =>
    match cancelRes with
    | .raised => reg
    | .completed _ =>
      match resubmitRes with
      | .raised => reg
      | .completed _ => if removeRaises then reg else removeEntry reg jobId

/-- The classification cascade of `poll_jobs` for one job: `job_has_error`
first (with the first-tick damping `job_is_dead = not first`), then
`job_has_stalled`. -/
def pollJobsIsDead (first : Bool) (errored : Bool) (m : Memory2) (jobId : Nat)
    (now : Nat) : Bool :=
  if errored then !first
  else job_has_stalled m jobId now

/- ------------------------------------------------------------------ -/
/- Spec-side definition for claim C10 (refinement target)              -/
/- ------------------------------------------------------------------ -/

/-- Modelled from the claim's words, for comparison with `line_to_list`:
split a line into fields, where a run of two or more spaces separates fields
and a single space stays inside the current field.  (A lone trailing space is
left in the field; that case is excluded by the claim's error condition.) -/
def splitRuns : List Char → List (List Char)
  | [] => [[]]
  | [c] => consF c [[]]
  | c :: c2 :: rest2 =>
    if c = ' ' ∧ c2 = ' ' then [] :: splitRuns (rest2.dropWhile (fun d => d = ' '))
    else consF c (splitRuns (c2 :: rest2))
termination_by s => s.length
decreasing_by
  · simp only [List.length_cons]
    have := dropWhileLenLe (fun d => decide (d = ' ')) rest2
    omega
  · simp only [List.length_cons]
    omega

/-- The claim-side field list: the chunks cut by runs of two or more spaces,
with empty chunks (from leading/trailing runs) dropped. -/
def fieldsSpec (l : List Char) : List (List Char) :=
  (splitRuns l).filter (fun f => !f.isEmpty)

/-- Proof-side image of one field inside `final_line`: each single space of a
field appears as the sentinel `DUMMY_VALUE`. -/
def encodeField (f : List Char) : List Char :=
  f.flatMap (fun c => if c = ' ' then dummyValue else [c])

/- ================================================================== -/
/- Claims C1 and C5: the staleness state machine and the tri-state     -/
/- classification                                                      -/
/- ================================================================== -/

/-- Claim C1: for every job observed on a tick (with no error marker, so the
staleness check runs): a job with no prior record is classified Healthy and
seeds its record; if the current text differs from the stored contents the
record is updated to (now, text) and the job is Healthy; if the text is
identical the job is Stalled iff `now - lastChangedAt` strictly exceeds the
stale threshold (whose default is 30 minutes), and the record is untouched -
hence Stalled first appears on the first tick after the threshold is crossed
and never before. -/
theorem claim_C1 (staleTime : Nat) (m : Memory) (j : Nat) (c : List Char)
    (now : Nat) (hne : hasSub errorMarker c = false) :
    (m j = none → classify staleTime m j c now =
        (Classification.healthy, fun k => if k = j then some (now, c) else m k)) ∧
    (∀ t lc, m j = some (t, lc) → lc ≠ c → classify staleTime m j c now =
        (Classification.healthy, fun k => if k = j then some (now, c) else m k)) ∧
    (∀ t, m j = some (t, c) → classify staleTime m j c now =
        ((if now - t > staleTime then Classification.stalled else Classification.healthy),
          m)) ∧
    defaultStaleTime = 30 * 60 := by
  refine ⟨?_, ?_, ?_, by norm_num [defaultStaleTime]⟩
  · intro h
    simp [classify, hne, is_stale, h]
  · intro t lc h hlc
    simp [classify, hne, is_stale, h, hlc]
  · intro t h
    by_cases hs : now - t > staleTime
    · simp [classify, hne, is_stale, h, hs]
    · simp [classify, hne, is_stale, h, hs]

/-- Witness for claim C1 at concrete inputs. -/
theorem claim_C1_witness :
    classify 1800 (fun _ => none) 1 "ok".data 5 =
      (Classification.healthy,
        fun k => if k = 1 then some (5, "ok".data) else none) :=
  (claim_C1 1800 (fun _ => none) 1 "ok".data 5 (by decide)).1 rfl

/-- Claim C5: the per-tick classification is mutually exclusive with error
priority: the outcome is Errored exactly when the log contains the marker
(regardless of the staleness history), Stalled exactly when there is no marker
and the staleness check fires, Healthy exactly when there is no marker and the
staleness check does not fire. -/
theorem claim_C5 (staleTime : Nat) (m : Memory) (j : Nat) (c : List Char)
    (now : Nat) :
    ((∃ line, (classify staleTime m j c now).1 = Classification.errored line) ↔
        hasSub errorMarker c = true) ∧
    ((classify staleTime m j c now).1 = Classification.stalled ↔
        (hasSub errorMarker c = false ∧ (is_stale staleTime m j c now).1 = true)) ∧
    ((classify staleTime m j c now).1 = Classification.healthy ↔
        (hasSub errorMarker c = false ∧ (is_stale staleTime m j c now).1 = false)) := by
  by_cases he : hasSub errorMarker c = true
  · simp [classify, he]
  · rw [Bool.not_eq_true] at he
    rcases hs : is_stale staleTime m j c now with ⟨b, m'⟩
    cases b <;> simp [classify, he, hs]

/- ================================================================== -/
/- Claim C2: the cold-start damping flag                               -/
/- ================================================================== -/

/-- Claim C2 (divergence witness): on the very first tick
(`self._first_time = True`), a job whose log contains the error marker is
still cancelled and resubmitted by `StuckJobKiller.poll` - the flag only
changes the notification text, which claims "NOT resubmitted"
(`Action.notify true`) while `sbatch` has just been issued. -/
theorem claim_C2 :
    (pollJobStep true [1] 1 "Error: boom".data (fun _ => none) 0).1 =
      [Action.writeLog (rewriteError "Error: boom".data), Action.scancel 1,
        Action.sbatch, Action.notify true] ∧
    Action.sbatch ∈ (pollJobStep true [1] 1 "Error: boom".data (fun _ => none) 0).1 := by
  constructor
  · rfl
  · simp [pollJobStep, show hasSub errorMarker "Error: boom".data = true from by decide]

/- ================================================================== -/
/- Claim C3: registry retention on failed actions                     -/
/- ================================================================== -/

/-- Concrete registration record used in counterexamples. -/
def cexEntry : RegEntry :=
  { output_file := "out.log".data, sbatch_file := "train.sbatch".data }

/-- Concrete one-entry registry used in counterexamples. -/
def cexRegistry : Registry :=
  fun k => if k = 7 then some cexEntry else none

/-- Counterexample to claim C3 as stated: the resubmit command runs and exits
with non-zero status 1 ("the resubmit command fails (non-zero exit status)"),
yet the registry entry for job 7 is removed, because `subprocess.run` is
invoked without `check=True` and the exit status is never inspected. -/
theorem claim_C3_cex :
    cexRegistry 7 = some cexEntry ∧
    handleDeadJob cexRegistry 7 (some cexEntry) (ProcResult.completed 0)
        (ProcResult.completed 1) false 7 = none := by
  constructor <;> rfl

/-- Claim C3 as amended: the registry entry survives the tick exactly when some
step raises (unreadable registration record, a cancel or resubmit whose launch
raises, or a failing removal); a cancel or resubmit that launches and exits
with a non-zero status does not prevent removal, which happens whenever no
exception is raised. -/
theorem claim_C3 (reg : Registry) (j : Nat) (readRes : Option RegEntry)
    (cancelRes resubmitRes : ProcResult) (removeRaises : Bool) :
    ((readRes = none ∨ cancelRes = ProcResult.raised ∨
        resubmitRes = ProcResult.raised ∨ removeRaises = true) →
      handleDeadJob reg j readRes cancelRes resubmitRes removeRaises = reg) ∧
    (∀ e ec1 ec2, readRes = some e → cancelRes = ProcResult.completed ec1 →
      resubmitRes = ProcResult.completed ec2 → removeRaises = false →
      handleDeadJob reg j readRes cancelRes resubmitRes removeRaises =
        removeEntry reg j) := by
  constructor
  · intro h
    cases readRes <;> cases cancelRes <;> cases resubmitRes <;>
      cases removeRaises <;> simp_all [handleDeadJob]
  · rintro e ec1 ec2 rfl rfl rfl rfl
    rfl

/-- Witness for claim C3: a cancel whose launch raises leaves the registry
unchanged. -/
theorem claim_C3_witness :
    handleDeadJob cexRegistry 7 (some cexEntry) ProcResult.raised
        (ProcResult.completed 0) false = cexRegistry :=
  (claim_C3 cexRegistry 7 (some cexEntry) ProcResult.raised
      (ProcResult.completed 0) false).1 (Or.inr (Or.inl rfl))

/- ================================================================== -/
/- Claim C6: unreadable log files                                      -/
/- ================================================================== -/

/-- Concrete liveness memory used in the C6 counterexample: job 3 last seen
with content "abc" at time 0. -/
def c6mem : Memory2 :=
  fun k => if k = 3 then some ("abc".data, 0) else none

/-- Counterexample to claim C6 as stated: at time 5 the output file of job 3 is
unreadable, which `get_current_output_file_contents` reports as the empty
string; `update_memory` treats that as an ordinary observation that differs
from the stored "abc", so it replaces the stored content and resets the
staleness clock - the tick does NOT count as "no observation". -/
theorem claim_C6_cex :
    get_current_output_file_contents (some cexEntry) none = [] ∧
    c6mem 3 = some ("abc".data, 0) ∧
    update_memory c6mem [(3, [])] 5 3 = some ([], 5) ∧
    some (([] : List Char), 5) ≠ some ("abc".data, 0) := by
  refine ⟨rfl, rfl, rfl, by decide⟩

/-- Claim C6 as amended: a missing or unreadable log (either an unreadable
registration record or an unreadable output file) is observed as the empty
string, and the record then follows the ordinary change rule: it stays
unchanged iff the stored content was already empty, otherwise the stored
content is replaced by the empty string and the staleness clock is reset to
now; a job with no record is seeded with (empty, now). -/
theorem claim_C6 (m : Memory2) (j : Nat) (now : Nat) (regRead : Option RegEntry) :
    get_current_output_file_contents regRead none = [] ∧
    (∀ t, m j = some ([], t) → update_memory_entry m j [] now = ([], t)) ∧
    (∀ c t, m j = some (c, t) → c ≠ [] → update_memory_entry m j [] now = ([], now)) ∧
    (m j = none → update_memory_entry m j [] now = ([], now)) := by
  refine ⟨?_, ?_, ?_, ?_⟩
  · cases regRead <;> rfl
  · intro t h
    simp [update_memory_entry, h]
  · intro c t h hc
    simp [update_memory_entry, h, Ne.symm hc]
  · intro h
    simp [update_memory_entry, h]

/-- Witness for claim C6 at concrete inputs. -/
theorem claim_C6_witness :
    get_current_output_file_contents (some cexEntry) none = [] ∧
    update_memory_entry c6mem 3 [] 5 = ([], 5) :=
  ⟨(claim_C6 c6mem 3 5 (some cexEntry)).1,
    (claim_C6 c6mem 3 5 (some cexEntry)).2.2.1 "abc".data 0 rfl (by decide)⟩

/- ================================================================== -/
/- Claims C7 and C8: the scheduler query cache                         -/
/- ================================================================== -/

/-- A concrete non-empty cached table used in counterexamples. -/
def cexTable : SqueueTable :=
  [["123".data, "p".data, "n".data, "R".data, "x".data]]

/-- Counterexample to claim C7 as stated: the query process fails with a
non-zero exit status and empty captured stdout; the refresh replaces the
previous non-empty snapshot by the empty table instead of retaining it. -/
theorem claim_C7_cex :
    refresh { last_peek := 0, latest_info := some cexTable,
              cooldown_seconds := 120 } 200 false (some []) =
      Except.ok (true, { last_peek := 200, latest_info := some [],
                         cooldown_seconds := 120 }) ∧
    some ([] : SqueueTable) ≠ some cexTable := by
  refine ⟨rfl, by decide⟩

/-- Claim C7 as amended: whenever a refresh is attempted, the cached table is
replaced by the parse of whatever stdout the query produced (the previous
snapshot is never retained; a failed query with empty output yields the empty
table), and a process-launch failure raises out of `refresh` uncaught, with
`last_peek` already advanced and the snapshot left in place. -/
theorem claim_C7 (s : MonState) (now : Nat) (force : Bool)
    (queryOut : Option (List Char))
    (hgate : (force || decide (now - s.last_peek > s.cooldown_seconds)) = true) :
    (∀ out, queryOut = some out →
      refresh s now force queryOut =
        Except.ok (true, { last_peek := now, latest_info := some (get_squeue_data out),
                           cooldown_seconds := s.cooldown_seconds })) ∧
    (queryOut = none →
      refresh s now force queryOut =
        Except.error { last_peek := now, latest_info := s.latest_info,
                       cooldown_seconds := s.cooldown_seconds }) ∧
    get_squeue_data [] = [] := by
  obtain ⟨lp, li, cd⟩ := s
  refine ⟨?_, ?_, rfl⟩
  · rintro out rfl
    simp only [refresh, hgate, if_true]
  · rintro rfl
    simp only [refresh, hgate, if_true]

/-- Witness for claim C7 at concrete inputs. -/
theorem claim_C7_witness :
    refresh { last_peek := 0, latest_info := some cexTable, cooldown_seconds := 120 }
        200 false none =
      Except.error { last_peek := 200, latest_info := some cexTable,
                     cooldown_seconds := 120 } :=
  (claim_C7 _ 200 false none (by decide)).2.1 rfl

/-- A concrete healthy squeue stdout used in the C8 counterexample. -/
def goodStdout : List Char :=
  "JOBID PARTITION NAME ST NODELIST(REASON)\n1 p n R x".data

/-- Counterexample to claim C8 as stated: a successful refresh happens at time
1000; at time 1200 an attempt is made whose query launch raises (so the last
SUCCESSFUL query is still the one at 1000, but `last_peek` is now 1200); at
time 1280, more than the 120 s cooldown has elapsed since the last successful
query (280 s), yet `refresh` attempts nothing and returns false, because the
cooldown is measured from the failed attempt. -/
theorem claim_C8_cex :
    refresh (initMonState 120) 1000 false (some goodStdout) =
      Except.ok (true, { last_peek := 1000,
                         latest_info := some (get_squeue_data goodStdout),
                         cooldown_seconds := 120 }) ∧
    refresh { last_peek := 1000, latest_info := some (get_squeue_data goodStdout),
              cooldown_seconds := 120 } 1200 false none =
      Except.error { last_peek := 1200,
                     latest_info := some (get_squeue_data goodStdout),
                     cooldown_seconds := 120 } ∧
    refresh { last_peek := 1200, latest_info := some (get_squeue_data goodStdout),
              cooldown_seconds := 120 } 1280 false (some goodStdout) =
      Except.ok (false, { last_peek := 1200,
                          latest_info := some (get_squeue_data goodStdout),
                          cooldown_seconds := 120 }) ∧
    1280 - 1000 > 120 := by
  refine ⟨rfl, rfl, rfl, by decide⟩

/-- Claim C8 as amended: `refresh` attempts a new query iff `force` is true or
strictly more than the cooldown has elapsed since the last ATTEMPT (`last_peek`
is advanced on every attempt, successful or not, even when the query then
raises); it returns true exactly when an attempt was made and the query
returned, and a false return leaves the state (including the cached table)
unchanged. -/
theorem claim_C8 (s : MonState) (now : Nat) (force : Bool)
    (queryOut : Option (List Char)) :
    ((force || decide (now - s.last_peek > s.cooldown_seconds)) = false →
      refresh s now force queryOut = Except.ok (false, s)) ∧
    ((force || decide (now - s.last_peek > s.cooldown_seconds)) = true →
      (∀ out, queryOut = some out →
        refresh s now force queryOut =
          Except.ok (true, { last_peek := now,
                             latest_info := some (get_squeue_data out),
                             cooldown_seconds := s.cooldown_seconds })) ∧
      (queryOut = none →
        refresh s now force queryOut =
          Except.error { last_peek := now, latest_info := s.latest_info,
                         cooldown_seconds := s.cooldown_seconds })) := by
  constructor
  · intro hgate
    simp only [refresh, hgate, Bool.false_eq_true, if_false]
  · intro hgate
    obtain ⟨lp, li, cd⟩ := s
    refine ⟨?_, ?_⟩
    · rintro out rfl
      simp only [refresh, hgate, if_true]
    · rintro rfl
      simp only [refresh, hgate, if_true]

/-- Witness for claim C8 at concrete inputs (cooldown not yet elapsed since
the last attempt: no refresh, state unchanged). -/
theorem claim_C8_witness :
    refresh { last_peek := 1200, latest_info := some cexTable,
              cooldown_seconds := 120 } 1280 false (some goodStdout) =
      Except.ok (false, { last_peek := 1200, latest_info := some cexTable,
                          cooldown_seconds := 120 }) :=
  (claim_C8 { last_peek := 1200, latest_info := some cexTable,
              cooldown_seconds := 120 } 1280 false (some goodStdout)).1 (by decide)

/- ================================================================== -/
/- Claim C9: the liveness-record invariant                             -/
/- ================================================================== -/

/-- Concrete liveness memory used in the C9 counterexample. -/
def c9mem : Memory :=
  fun k => if k = 7 then some (0, "ok".data) else none

/-- Counterexample to claim C9 as stated: job 7 is registered but absent from
the scheduler table (`active = []`); after the tick it nevertheless has an
entry in the map (the purge runs at the start of the tick and the per-job
staleness check re-seeds the record afterwards), so a jobId absent from the
scheduler table is NOT purged after every tick. -/
theorem claim_C9_cex :
    pollTick false c9mem [] [(7, "ok2".data)] 5 7 = some (5, "ok2".data) ∧
    7 ∉ ([] : List Nat) := by
  refine ⟨rfl, by decide⟩

/-- Claim C9 as amended: `purge_inactive` (run at the START of each tick)
keeps exactly the entries whose id is in the live table; during the tick the
per-job staleness check updates `lastChangedAt` iff the observed content
differs from the stored one or the job has no record - but only for jobs whose
log carries no error marker (an errored observation leaves the record
untouched even though its content differs) - and it re-seeds records for
registered jobs even when their id is absent from the scheduler table, so the
after-tick map can contain ids that are not in the table. -/
theorem claim_C9 (m : Memory) (ids : List Nat) (ft : Bool) (active : List Nat)
    (j : Nat) (c : List Char) (now : Nat) :
    (∀ k, (purge_inactive m ids k).isSome ↔ (k ∈ ids ∧ (m k).isSome)) ∧
    (hasSub errorMarker c = true → (pollJobStep ft active j c m now).2 = m) ∧
    (hasSub errorMarker c = false → m j = none →
      (pollJobStep ft active j c m now).2 j = some (now, c)) ∧
    (hasSub errorMarker c = false → ∀ t lc, m j = some (t, lc) →
      (pollJobStep ft active j c m now).2 j =
        if lc ≠ c then some (now, c) else some (t, lc)) ∧
    (hasSub errorMarker c = false → j ∉ active →
      ((pollJobStep ft active j c (purge_inactive m active) now).2 j).isSome = true) := by
  refine ⟨?_, ?_, ?_, ?_, ?_⟩
  · intro k
    by_cases hk : k ∈ ids <;> simp [purge_inactive, hk]
  · intro he
    simp [pollJobStep, he]
  · intro he hj
    simp [pollJobStep, he, is_stale, hj]
  · intro he t lc hj
    by_cases hlc : lc = c
    · subst hlc
      by_cases hs : now - t > defaultStaleTime <;>
        simp [pollJobStep, he, is_stale, hj, hs]
    · simp [pollJobStep, he, is_stale, hj, hlc]
  · intro he hact
    have hp : purge_inactive m active j = none := by
      simp [purge_inactive, hact]
    simp [pollJobStep, he, is_stale, hp]

/-- Witness for claim C9 at concrete inputs: a job absent from the table is
re-seeded during the tick. -/
theorem claim_C9_witness :
    ((pollJobStep false [] 7 "ok".data
        (purge_inactive (fun _ => none) []) 5).2 7).isSome = true :=
  (claim_C9 (fun _ => none) [] false [] 7 "ok".data 5).2.2.2.2 (by decide)
    (by simp)

/- ================================================================== -/
/- Claim C4: the marker rewrite                                        -/
/- ================================================================== -/

theorem errorMarker_explicit : errorMarker = ['E', 'r', 'r', 'o', 'r'] := rfl

theorem errorMarkerUpper_explicit : errorMarkerUpper = ['E', 'R', 'R', 'O', 'R'] := rfl

theorem pyReplace_nil (pat rep : List Char) : pyReplace pat rep [] = [] := by
  rw [pyReplace]

theorem pyReplace_cons (pat rep : List Char) (c : Char) (cs : List Char) :
    pyReplace pat rep (c :: cs) =
      if isPre pat (c :: cs) then rep ++ pyReplace pat rep (cs.drop (pat.length - 1))
      else c :: pyReplace pat rep cs := by
  rw [pyReplace]

/-- If the pattern occurs nowhere in `t`, Python `replace` returns `t`
verbatim. -/
theorem pyReplace_id_of_no_sub (pat rep : List Char) :
    ∀ t, hasSub pat t = false → pyReplace pat rep t = t := by
  intro t
  induction t with
  | nil => intro _; exact pyReplace_nil pat rep
  | cons c cs ih =>
    intro h
    have hsplit : isPre pat (c :: cs) = false ∧ hasSub pat cs = false := by
      cases hx : isPre pat (c :: cs) <;> simp [hasSub, hx] at h <;> simp [h]
    rw [pyReplace_cons, if_neg (by simp [hsplit.1]), ih hsplit.2]

/-- The key structural facts about `replace("Error", "ERROR")`: the output
never starts with the marker, and an output starting with a proper nonempty
suffix of the marker forces the input to start with that suffix (the
replacement introduces no new lowercase marker characters). -/
theorem rewrite_phi_aux : ∀ n : Nat, ∀ s : List Char, s.length ≤ n →
    (isPre errorMarker (rewriteError s) = false) ∧
    (isPre ['r', 'r', 'o', 'r'] (rewriteError s) = true →
      isPre ['r', 'r', 'o', 'r'] s = true) ∧
    (isPre ['r', 'o', 'r'] (rewriteError s) = true →
      isPre ['r', 'o', 'r'] s = true) ∧
    (isPre ['o', 'r'] (rewriteError s) = true → isPre ['o', 'r'] s = true) ∧
    (isPre ['r'] (rewriteError s) = true → isPre ['r'] s = true) := by
  intro n
  induction n with
  | zero =>
    intro s hs
    have hnil : s = [] := List.length_eq_zero.mp (Nat.le_zero.mp hs)
    subst hnil
    refine ⟨?_, ?_, ?_, ?_, ?_⟩ <;>
      simp [rewriteError, pyReplace_nil, errorMarker_explicit, isPre]
  | succ n ih =>
    intro s hs
    match s with
    | [] =>
      refine ⟨?_, ?_, ?_, ?_, ?_⟩ <;>
        simp [rewriteError, pyReplace_nil, errorMarker_explicit, isPre]
    | c :: cs =>
      have hlen : cs.length ≤ n := by
        simp only [List.length_cons] at hs
        omega
      by_cases hp : isPre errorMarker (c :: cs) = true
      · -- the marker is replaced here
        have hrw : rewriteError (c :: cs) =
            errorMarkerUpper ++ rewriteError (cs.drop 4) := by
          rw [rewriteError, pyReplace_cons, if_pos (by simp [hp])]
          rfl
        rw [hrw, errorMarkerUpper_explicit]
        refine ⟨?_, ?_, ?_, ?_, ?_⟩ <;>
          simp [isPre, errorMarker_explicit,
            show (('r' : Char) == 'R') = false from by decide,
            show (('r' : Char) == 'o') = false from by decide,
            show (('r' : Char) == 'E') = false from by decide,
            show (('o' : Char) == 'R') = false from by decide,
            show (('o' : Char) == 'E') = false from by decide]
      · -- the head character is copied
        have hrw : rewriteError (c :: cs) = c :: rewriteError cs := by
          rw [rewriteError, pyReplace_cons, if_neg (by simp [hp])]
          rfl
        obtain ⟨ih1, ih2, ih3, ih4, ih5⟩ := ih cs hlen
        refine ⟨?_, ?_, ?_, ?_, ?_⟩
        · rw [hrw]
          by_contra hcon
          rw [Bool.not_eq_false] at hcon
          rw [errorMarker_explicit] at hcon
          simp only [isPre, Bool.and_eq_true] at hcon
          obtain ⟨hE, hrest⟩ := hcon
          apply hp
          rw [errorMarker_explicit]
          simp only [isPre, Bool.and_eq_true]
          exact ⟨hE, ih2 hrest⟩
        · intro h
          rw [hrw] at h
          simp only [isPre, Bool.and_eq_true] at h
          simp only [isPre, Bool.and_eq_true]
          exact ⟨h.1, ih3 h.2⟩
        · intro h
          rw [hrw] at h
          simp only [isPre, Bool.and_eq_true] at h
          simp only [isPre, Bool.and_eq_true]
          exact ⟨h.1, ih4 h.2⟩
        · intro h
          rw [hrw] at h
          simp only [isPre, Bool.and_eq_true] at h
          simp only [isPre, Bool.and_eq_true]
          exact ⟨h.1, ih5 h.2⟩
        · intro h
          rw [hrw] at h
          simp only [isPre, Bool.and_eq_true] at h
          simp only [isPre, Bool.and_eq_true]
          exact ⟨h.1, trivial⟩

/-- The rewritten log never starts with the unescaped marker. -/
theorem isPre_rewriteError (s : List Char) :
    isPre errorMarker (rewriteError s) = false :=
  (rewrite_phi_aux s.length s le_rfl).1

/-- The rewritten log contains no occurrence of the unescaped marker. -/
theorem hasSub_rewriteError : ∀ s : List Char,
    hasSub errorMarker (rewriteError s) = false := by
  have aux : ∀ n : Nat, ∀ s : List Char, s.length ≤ n →
      hasSub errorMarker (rewriteError s) = false := by
    intro n
    induction n with
    | zero =>
      intro s hs
      have hnil : s = [] := List.length_eq_zero.mp (Nat.le_zero.mp hs)
      subst hnil
      simp [rewriteError, pyReplace_nil, hasSub, errorMarker_explicit, isPre]
    | succ n ih =>
      intro s hs
      match s with
      | [] => simp [rewriteError, pyReplace_nil, hasSub, errorMarker_explicit, isPre]
      | c :: cs =>
        have hlen : cs.length ≤ n := by
          simp only [List.length_cons] at hs
          omega
        by_cases hp : isPre errorMarker (c :: cs) = true
        · have hrw : rewriteError (c :: cs) =
              errorMarkerUpper ++ rewriteError (cs.drop 4) := by
            rw [rewriteError, pyReplace_cons, if_pos (by simp [hp])]
            rfl
          have htail : hasSub errorMarker (rewriteError (cs.drop 4)) = false := by
            have : (cs.drop 4).length ≤ n := by
              have := List.length_drop 4 cs
              omega
            exact ih _ this
          have htail2 : hasSub ['E', 'r', 'r', 'o', 'r']
              (rewriteError (List.drop 4 cs)) = false := by
            rw [← errorMarker_explicit]
            exact htail
          rw [hrw, errorMarkerUpper_explicit, errorMarker_explicit]
          simp [hasSub, isPre, htail2,
            show (('r' : Char) == 'R') = false from by decide,
            show (('E' : Char) == 'R') = false from by decide,
            show (('E' : Char) == 'O') = false from by decide]
        · have hrw : rewriteError (c :: cs) = c :: rewriteError cs := by
            rw [rewriteError, pyReplace_cons, if_neg (by simp [hp])]
            rfl
          have h1 : isPre errorMarker (c :: rewriteError cs) = false := by
            rw [← hrw]
            exact isPre_rewriteError (c :: cs)
          rw [hrw]
          simp [hasSub, h1, ih cs hlen]
  exact fun s => aux s.length s le_rfl

/-- Claim C4: a log containing the marker is classified Errored immediately
(the classification only looks at the current text, not the history), and the
marker rewrite is idempotent: its output never contains the unescaped marker,
and rewriting twice equals rewriting once. -/
theorem claim_C4 :
    (∀ staleTime (m : Memory) (j : Nat) (c : List Char) (now : Nat),
      hasSub errorMarker c = true →
      classify staleTime m j c now = (Classification.errored (getErrorLine c), m)) ∧
    (∀ s, hasSub errorMarker (rewriteError s) = false) ∧
    (∀ s, rewriteError (rewriteError s) = rewriteError s) := by
  refine ⟨?_, hasSub_rewriteError, ?_⟩
  · intro st m j c now he
    simp [classify, he]
  · intro s
    exact pyReplace_id_of_no_sub errorMarker errorMarkerUpper (rewriteError s)
      (hasSub_rewriteError s)

/-- Witness for claim C4 at concrete inputs. -/
theorem claim_C4_witness :
    classify 1800 (fun _ => none) 1 "RuntimeError: boom".data 0 =
      (Classification.errored (getErrorLine "RuntimeError: boom".data),
        (fun _ => none : Memory)) ∧
    hasSub errorMarker (rewriteError "RuntimeError: boom".data) = false ∧
    rewriteError (rewriteError "RuntimeError: boom".data) =
      rewriteError "RuntimeError: boom".data :=
  ⟨claim_C4.1 1800 (fun _ => none) 1 "RuntimeError: boom".data 0 (by decide),
    claim_C4.2.1 "RuntimeError: boom".data,
    claim_C4.2.2 "RuntimeError: boom".data⟩

/- ================================================================== -/
/- Claim C10: line_to_list                                             -/
/- ================================================================== -/

/- Equation lemmas for the splitting functions. -/

theorem splitWs_nil : splitWs [] = [[]] := by
  rw [splitWs]

theorem splitWs_cons (c : Char) (cs : List Char) :
    splitWs (c :: cs) =
      if isPySpace c then [] :: splitWs (cs.dropWhile isPySpace)
      else consF c (splitWs cs) := by
  rw [splitWs]

theorem splitRuns_nil : splitRuns [] = [[]] := by
  rw [splitRuns]

theorem splitRuns_single (c : Char) : splitRuns [c] = consF c [[]] := by
  rw [splitRuns]

theorem splitRuns_cons2 (c c2 : Char) (rest2 : List Char) :
    splitRuns (c :: c2 :: rest2) =
      if c = ' ' ∧ c2 = ' ' then
        [] :: splitRuns (rest2.dropWhile (fun d => d = ' '))
      else consF c (splitRuns (c2 :: rest2)) := by
  rw [splitRuns]

theorem consF_ne_nil (c : Char) (fs : List (List Char)) : consF c fs ≠ [] := by
  cases fs <;> simp [consF]

theorem splitWs_ne_nil (l : List Char) : splitWs l ≠ [] := by
  cases l with
  | nil => rw [splitWs_nil]; simp
  | cons c cs =>
    rw [splitWs_cons]
    by_cases h : isPySpace c = true
    · simp [h]
    · rw [if_neg h]
      exact consF_ne_nil c _

theorem splitRuns_ne_nil (l : List Char) : splitRuns l ≠ [] := by
  match l with
  | [] => rw [splitRuns_nil]; simp
  | [c] => rw [splitRuns_single]; exact consF_ne_nil c [[]]
  | c :: c2 :: rest2 =>
    rw [splitRuns_cons2]
    by_cases h : c = ' ' ∧ c2 = ' '
    · simp [h]
    · simp only [if_neg h]
      exact consF_ne_nil c _

theorem splitRuns_cons_nonspace (c : Char) (rest : List Char) (hc : c ≠ ' ') :
    splitRuns (c :: rest) = consF c (splitRuns rest) := by
  cases rest with
  | nil => rw [splitRuns_single, splitRuns_nil]
  | cons c2 rest2 =>
    rw [splitRuns_cons2]
    exact if_neg (by simp [hc])

/- Equation helpers for `buildFinalLine`. -/

theorem build_nil (p : Bool) : buildFinalLine p [] = some [] := rfl

theorem build_nonspace (p : Bool) (c : Char) (cs : List Char) (hc : c ≠ ' ') :
    buildFinalLine p (c :: cs) =
      (buildFinalLine false cs).map (fun r => c :: r) := by
  simp [buildFinalLine, hc]

theorem build_space_prev (cs : List Char) :
    buildFinalLine true (' ' :: cs) =
      (buildFinalLine true cs).map (fun r => ' ' :: r) := by
  simp [buildFinalLine]

theorem build_space_last : buildFinalLine false [' '] = none := rfl

theorem build_space_space (rest2 : List Char) :
    buildFinalLine false (' ' :: ' ' :: rest2) =
      (buildFinalLine true (' ' :: rest2)).map (fun r => ' ' :: r) := by
  simp [buildFinalLine]

theorem build_space_nonspace (c2 : Char) (rest2 : List Char) (h : c2 ≠ ' ') :
    buildFinalLine false (' ' :: c2 :: rest2) =
      (buildFinalLine true (c2 :: rest2)).map (fun r => dummyValue ++ r) := by
  simp [buildFinalLine, h]

theorem build_true_false (c : Char) (cs : List Char) (hc : c ≠ ' ') :
    buildFinalLine true (c :: cs) = buildFinalLine false (c :: cs) := by
  simp [buildFinalLine, hc]

/-- Part (a) of claim C10: `buildFinalLine` fails exactly on a trailing space
whose predecessor is absent or not a space. -/
theorem buildNone : ∀ l : List Char, ∀ p : Bool,
    (buildFinalLine p l = none ↔
      (∃ l1 c, l = l1 ++ [c, ' '] ∧ c ≠ ' ') ∨ (l = [' '] ∧ p = false)) := by
  intro l
  induction l with
  | nil =>
    intro p
    rw [build_nil]
    constructor
    · intro h
      exact absurd h (by simp)
    · rintro (⟨l1, c, h, _⟩ | ⟨h, _⟩) <;> simp at h
  | cons c cs ih =>
    intro p
    by_cases hc : c = ' '
    · subst hc
      cases p with
      | true =>
        rw [build_space_prev, Option.map_eq_none']
        rw [ih true]
        constructor
        · rintro (⟨l1, c', h, hne⟩ | ⟨_, h⟩)
          · exact Or.inl ⟨' ' :: l1, c', by simp [h], hne⟩
          · exact absurd h (by simp)
        · rintro (⟨l1, c', h, hne⟩ | ⟨_, hfalse⟩)
          · cases l1 with
            | nil =>
              simp at h
              exact absurd h.1.symm hne
            | cons x l1' =>
              simp at h
              exact Or.inl ⟨l1', c', h.2, hne⟩
          · simp at hfalse
      | false =>
        cases cs with
        | nil =>
          rw [build_space_last]
          simp
        | cons c2 rest2 =>
          have hstep : buildFinalLine false (' ' :: c2 :: rest2) = none ↔
              buildFinalLine true (c2 :: rest2) = none := by
            by_cases h2 : c2 = ' '
            · subst h2
              rw [build_space_space, Option.map_eq_none']
            · rw [build_space_nonspace c2 rest2 h2, Option.map_eq_none']
          rw [hstep, ih true]
          constructor
          · rintro (⟨l1, c', h, hne⟩ | ⟨_, h⟩)
            · exact Or.inl ⟨' ' :: l1, c', by simp [h], hne⟩
            · exact absurd h (by simp)
          · rintro (⟨l1, c', h, hne⟩ | ⟨h, _⟩)
            · cases l1 with
              | nil =>
                simp at h
                exact absurd h.1.symm hne
              | cons x l1' =>
                simp at h
                exact Or.inl ⟨l1', c', h.2, hne⟩
            · simp at h
    · rw [build_nonspace p c cs hc, Option.map_eq_none']
      rw [ih false]
      constructor
      · rintro (⟨l1, c', h, hne⟩ | ⟨h, _⟩)
        · exact Or.inl ⟨c :: l1, c', by simp [h], hne⟩
        · exact Or.inl ⟨[], c, by simp [h], hc⟩
      · rintro (⟨l1, c', h, hne⟩ | ⟨h, _⟩)
        · cases l1 with
          | nil =>
            simp at h
            exact Or.inr ⟨h.2, rfl⟩
          | cons x l1' =>
            simp at h
            exact Or.inl ⟨l1', c', h.2, hne⟩
        · simp [hc] at h

/- Helper list lemmas for part (b). -/

theorem dropWhile_head_not (p : Char → Bool) :
    ∀ (l : List Char) (c : Char) (cs : List Char),
      l.dropWhile p = c :: cs → p c = false := by
  intro l
  induction l with
  | nil => intro c cs h; simp [List.dropWhile] at h
  | cons x xs ih =>
    intro c cs h
    by_cases hx : p x = true
    · rw [List.dropWhile_cons_of_pos hx] at h
      exact ih c cs h
    · rw [List.dropWhile_cons_of_neg hx] at h
      cases h
      exact Bool.not_eq_true _ |>.mp hx

theorem dropWhile_subset (p : Char → Bool) :
    ∀ (l : List Char) (x : Char), x ∈ l.dropWhile p → x ∈ l := by
  intro l
  induction l with
  | nil => intro x h; simp [List.dropWhile] at h
  | cons y ys ih =>
    intro x h
    by_cases hy : p y = true
    · rw [List.dropWhile_cons_of_pos hy] at h
      exact List.mem_cons_of_mem y (ih x h)
    · rw [List.dropWhile_cons_of_neg hy] at h
      exact h

theorem dropWhile_append_of_all (p : Char → Bool) :
    ∀ (w x : List Char), (∀ c ∈ w, p c = true) →
      (w ++ x).dropWhile p = x.dropWhile p := by
  intro w
  induction w with
  | nil => intro x _; rfl
  | cons c w' ih =>
    intro x hw
    rw [List.cons_append, List.dropWhile_cons_of_pos (hw c (by simp))]
    exact ih x (fun d hd => hw d (by simp [hd]))

/-- Fuse a run of non-whitespace characters into the first token of a split. -/
def prependF (w : List Char) : List (List Char) → List (List Char)
  | [] => [w]
  | f :: fs => (w ++ f) :: fs

theorem consF_prependF (c : Char) (w : List Char) (fs : List (List Char)) :
    consF c (prependF w fs) = prependF (c :: w) fs := by
  cases fs <;> rfl

theorem splitWs_append_nonws :
    ∀ (w x : List Char), (∀ c ∈ w, isPySpace c = false) →
      splitWs (w ++ x) = prependF w (splitWs x) := by
  intro w
  induction w with
  | nil =>
    intro x _
    rcases hx : splitWs x with _ | ⟨f, fs⟩
    · exact absurd hx (splitWs_ne_nil x)
    · rw [List.nil_append, hx]
      simp [prependF]
  | cons c w' ih =>
    intro x hw
    rw [List.cons_append, splitWs_cons, if_neg (by simp [hw c (by simp)])]
    rw [ih x (fun d hd => hw d (by simp [hd]))]
    exact consF_prependF c w' (splitWs x)

theorem mem_takeWhile_pred (p : Char → Bool) :
    ∀ (l : List Char) (x : Char), x ∈ l.takeWhile p → p x = true := by
  intro l
  induction l with
  | nil => intro x h; simp [List.takeWhile] at h
  | cons c cs ih =>
    intro x h
    by_cases hc : p c = true
    · rw [List.takeWhile_cons_of_pos hc] at h
      rcases List.mem_cons.mp h with rfl | h'
      · exact hc
      · exact ih x h'
    · rw [List.takeWhile_cons_of_neg hc] at h
      simp at h

/- Facts about `encodeField` and the sentinel. -/

theorem enc_nil : encodeField [] = [] := by
  simp [encodeField]

theorem enc_cons_space (f : List Char) :
    encodeField (' ' :: f) = dummyValue ++ encodeField f := by
  simp [encodeField]

theorem enc_cons_nonspace (c : Char) (f : List Char) (hc : c ≠ ' ') :
    encodeField (c :: f) = c :: encodeField f := by
  simp [encodeField, hc]

theorem dummy_head : dummyValue = '4' :: "123kjhgkjhg156298".data := rfl

theorem enc_isEmpty (f : List Char) : (encodeField f).isEmpty = f.isEmpty := by
  cases f with
  | nil => rfl
  | cons c f' =>
    by_cases hc : c = ' '
    · subst hc
      rw [enc_cons_space, dummy_head, List.cons_append]
      rfl
    · rw [enc_cons_nonspace c f' hc]
      rfl

theorem dummy_no_ws : ∀ c ∈ dummyValue, isPySpace c = false := by decide

theorem dummy_no_border :
    ∀ k, k < 18 → 1 ≤ k → isPre (dummyValue.drop k) dummyValue = false := by decide

theorem dummy_hasSub_nil : hasSub dummyValue [] = false := by decide

/- Prefix-matching utilities. -/

theorem isPre_append_self : ∀ (w x : List Char), isPre w (w ++ x) = true := by
  intro w
  induction w with
  | nil => intro x; rfl
  | cons a w' ih =>
    intro x
    rw [List.cons_append]
    simp [isPre, ih]

theorem isPre_nil_right (w : List Char) : isPre w [] = true ↔ w = [] := by
  cases w <;> simp [isPre]

theorem isPre_append_of_le :
    ∀ (w a x : List Char), w.length ≤ a.length → isPre w (a ++ x) = isPre w a := by
  intro w
  induction w with
  | nil => intro a x _; rfl
  | cons b w' ih =>
    intro a x hlen
    cases a with
    | nil => simp at hlen
    | cons a0 a' =>
      rw [List.cons_append]
      simp only [isPre]
      rw [ih a' x (by simp only [List.length_cons] at hlen; omega)]

theorem hasSub_of_isPre (pat : List Char) :
    ∀ l, isPre pat l = true → hasSub pat l = true := by
  intro l h
  cases l with
  | nil => simpa [hasSub] using h
  | cons c cs => simp [hasSub, h]

theorem hasSub_cons_of (pat : List Char) (c : Char) (t : List Char)
    (h : hasSub pat t = true) : hasSub pat (c :: t) = true := by
  simp [hasSub, h]

theorem hasSub_dropWhile (pat : List Char) (q : Char → Bool) :
    ∀ l, hasSub pat (l.dropWhile q) = true → hasSub pat l = true := by
  intro l
  induction l with
  | nil => intro h; simpa [List.dropWhile] using h
  | cons c cs ih =>
    intro h
    by_cases hc : q c = true
    · rw [List.dropWhile_cons_of_pos hc] at h
      exact hasSub_cons_of pat c cs (ih h)
    · rwa [List.dropWhile_cons_of_neg hc] at h

/-- A nonempty suffix of the sentinel that matches a prefix of an encoded field
must be matched entirely by copied (non-space) characters of the field, because
the sentinel has no nontrivial border: matching it against a fresh sentinel
block is impossible. -/
theorem enc_pre_dummy_drop :
    ∀ (f : List Char) (k : Nat), 1 ≤ k →
      isPre (dummyValue.drop k) (encodeField f) = true →
      isPre (dummyValue.drop k) f = true := by
  intro f
  induction f with
  | nil =>
    intro k _ h
    rw [enc_nil] at h
    rw [(isPre_nil_right _).mp h]
    rfl
  | cons c f' ih =>
    intro k hk h
    by_cases hk18 : 18 ≤ k
    · have hdk : dummyValue.drop k = [] :=
        List.drop_eq_nil_of_le (le_trans (le_of_eq (by rfl)) hk18)
      rw [hdk]
      rfl
    · push_neg at hk18
      by_cases hc : c = ' '
      · subst hc
        rw [enc_cons_space] at h
        have hlen : (dummyValue.drop k).length ≤ dummyValue.length := by
          rw [List.length_drop]
          omega
        rw [isPre_append_of_le _ _ _ hlen] at h
        rw [dummy_no_border k hk18 hk] at h
        exact absurd h (by simp)
      · rw [enc_cons_nonspace c f' hc] at h
        rcases hw : dummyValue.drop k with _ | ⟨w0, w'⟩
        · rfl
        · rw [hw] at h
          simp only [isPre, Bool.and_eq_true] at h
          have hw' : dummyValue.drop (k + 1) = w' := by
            have h1 : dummyValue.drop (k + 1) = (dummyValue.drop k).drop 1 := by
              rw [List.drop_drop, Nat.add_comm]
            rw [h1, hw]
            rfl
          have hrec := ih (k + 1) (by omega) (by rw [hw']; exact h.2)
          simp only [isPre, Bool.and_eq_true]
          exact ⟨h.1, hw' ▸ hrec⟩

/-- Decoding an encoded field: if the field contains no occurrence of the
sentinel, `replace(DUMMY_VALUE, " ")` inverts the encoding exactly. -/
theorem pyReplace_enc :
    ∀ f : List Char, hasSub dummyValue f = false →
      pyReplace dummyValue [' '] (encodeField f) = f := by
  intro f
  induction f with
  | nil =>
    intro _
    rw [enc_nil, pyReplace_nil]
  | cons c f' ih =>
    intro h
    have hsplit : isPre dummyValue (c :: f') = false ∧
        hasSub dummyValue f' = false := by
      cases hx : isPre dummyValue (c :: f') <;> simp [hasSub, hx] at h <;> simp [h]
    by_cases hc : c = ' '
    · subst hc
      rw [enc_cons_space]
      have hx : dummyValue ++ encodeField f' =
          '4' :: ("123kjhgkjhg156298".data ++ encodeField f') := by
        rw [dummy_head, List.cons_append]
      rw [hx, pyReplace_cons]
      rw [if_pos (by rw [← hx]; exact isPre_append_self dummyValue (encodeField f'))]
      rw [show dummyValue.length - 1 = ("123kjhgkjhg156298".data).length from rfl]
      rw [List.drop_left]
      rw [ih hsplit.2]
      rfl
    · rw [enc_cons_nonspace c f' hc, pyReplace_cons]
      have hni : ¬ isPre dummyValue (c :: encodeField f') = true := by
        intro hcon
        rw [dummy_head] at hcon
        simp only [isPre, Bool.and_eq_true] at hcon
        have h2 : isPre (dummyValue.drop 1) (encodeField f') = true := by
          rw [show dummyValue.drop 1 = "123kjhgkjhg156298".data from rfl]
          exact hcon.2
        have h3 := enc_pre_dummy_drop f' 1 le_rfl h2
        have h4 : isPre dummyValue (c :: f') = true := by
          rw [dummy_head]
          simp only [isPre, Bool.and_eq_true]
          exact ⟨hcon.1, h3⟩
        rw [hsplit.1] at h4
        exact absurd h4 (by simp)
      rw [if_neg hni, ih hsplit.2]

/- The image of a run of spaces under `buildFinalLine`. -/

theorem build_true_spaces :
    ∀ (sp rest3 : List Char), (∀ c ∈ sp, c = ' ') →
      (rest3 = [] ∨ ∃ c cs, rest3 = c :: cs ∧ c ≠ ' ') →
      buildFinalLine true (sp ++ rest3) =
        (buildFinalLine false rest3).map (fun r => sp ++ r) := by
  intro sp
  induction sp with
  | nil =>
    intro rest3 _ h3
    rw [List.nil_append]
    rcases h3 with rfl | ⟨c, cs, rfl, hc⟩
    · rfl
    · rw [build_true_false c cs hc]
      cases hb : buildFinalLine false (c :: cs) <;> simp
  | cons c0 sp' ih =>
    intro rest3 hsp h3
    have hc0 : c0 = ' ' := hsp c0 (by simp)
    subst hc0
    rw [List.cons_append, build_space_prev]
    rw [ih rest3 (fun d hd => hsp d (by simp [hd])) h3]
    cases hb : buildFinalLine false rest3 <;> simp

theorem build_head (p : Bool) (c : Char) (cs : List Char) (fl : List Char)
    (hc : c ≠ ' ') (h : buildFinalLine p (c :: cs) = some fl) :
    ∃ fl', buildFinalLine false cs = some fl' ∧ fl = c :: fl' := by
  rw [build_nonspace p c cs hc] at h
  cases hb : buildFinalLine false cs with
  | none => rw [hb] at h; simp at h
  | some fl' =>
    rw [hb] at h
    simp only [Option.map_some'] at h
    exact ⟨fl', rfl, (Option.some.inj h).symm⟩

/-- The token correspondence: on a line whose characters are spaces or
non-whitespace, the whitespace split of `final_line` is exactly the
sentinel-encoding of the claim-side fields. -/
theorem splitWs_build : ∀ n : Nat, ∀ l : List Char, l.length ≤ n →
    (∀ c ∈ l, c = ' ' ∨ isPySpace c = false) →
    ∀ fl, buildFinalLine false l = some fl →
    splitWs fl = (splitRuns l).map encodeField := by
  intro n
  induction n with
  | zero =>
    intro l hl _ fl hfl
    have hnil : l = [] := List.length_eq_zero.mp (Nat.le_zero.mp hl)
    subst hnil
    rw [build_nil] at hfl
    obtain rfl := (Option.some.inj hfl).symm
    rw [splitWs_nil, splitRuns_nil]
    simp [enc_nil]
  | succ n ih =>
    intro l hl hwf fl hfl
    match l with
    | [] =>
      rw [build_nil] at hfl
      obtain rfl := (Option.some.inj hfl).symm
      rw [splitWs_nil, splitRuns_nil]
      simp [enc_nil]
    | c :: rest =>
      by_cases hc : c = ' '
      · subst hc
        rcases rest with _ | ⟨c2, rest2⟩
        · rw [build_space_last] at hfl
          exact absurd hfl (by simp)
        · by_cases hc2 : c2 = ' '
          · subst hc2
            -- run case: l = ' ' :: ' ' :: rest2
            have hsp : ∀ d ∈ rest2.takeWhile (fun x => x = ' '), d = ' ' := by
              intro d hd
              simpa using mem_takeWhile_pred _ rest2 d hd
            rw [build_space_space, build_space_prev] at hfl
            rcases hd : rest2.dropWhile (fun x => x = ' ') with _ | ⟨c3, cs3⟩
            · -- the line ends in the run
              have hb := build_true_spaces (rest2.takeWhile (fun x => x = ' '))
                (rest2.dropWhile (fun x => x = ' ')) hsp (Or.inl hd)
              rw [List.takeWhile_append_dropWhile] at hb
              rw [hb, hd, build_nil] at hfl
              simp only [Option.map_some'] at hfl
              obtain rfl := (Option.some.inj hfl).symm
              rw [splitRuns_cons2, if_pos ⟨rfl, rfl⟩, hd, splitRuns_nil]
              rw [splitWs_cons, if_pos (show isPySpace ' ' = true from rfl)]
              rw [show (' ' :: (rest2.takeWhile (fun x => x = ' ') ++ [])).dropWhile
                    isPySpace = [] from by
                rw [List.dropWhile_cons_of_pos (show isPySpace ' ' = true from rfl)]
                rw [List.append_nil]
                exact List.dropWhile_eq_nil_iff.mpr
                  (fun d hd2 => by rw [hsp d hd2]; rfl)]
              rw [splitWs_nil]
              simp [enc_nil]
            · -- a non-space character follows the run
              have hc3 : c3 ≠ ' ' := by
                have := dropWhile_head_not (fun x => decide (x = ' ')) rest2 c3 cs3 hd
                simpa using this
              have hb := build_true_spaces (rest2.takeWhile (fun x => x = ' '))
                (rest2.dropWhile (fun x => x = ' ')) hsp
                (Or.inr ⟨c3, cs3, hd, hc3⟩)
              rw [List.takeWhile_append_dropWhile] at hb
              rw [hb] at hfl
              cases hb3 : buildFinalLine false (rest2.dropWhile (fun x => x = ' ')) with
              | none => rw [hb3] at hfl; simp at hfl
              | some fl3 =>
                rw [hb3] at hfl
                simp only [Option.map_some'] at hfl
                obtain rfl := (Option.some.inj hfl).symm
                -- fl3 starts with the non-space character c3
                obtain ⟨fl3', _, hfl3⟩ :=
                  build_head false c3 cs3 fl3 hc3 (by rw [← hd]; exact hb3)
                have hc3ws : isPySpace c3 = false := by
                  rcases hwf c3 (by
                    refine List.mem_cons_of_mem _ (List.mem_cons_of_mem _ ?_)
                    exact dropWhile_subset _ rest2 c3 (by rw [hd]; simp)) with h | h
                  · exact absurd h hc3
                  · exact h
                have hIH : splitWs fl3 =
                    (splitRuns (rest2.dropWhile (fun x => x = ' '))).map encodeField := by
                  refine ih (rest2.dropWhile (fun x => x = ' ')) ?_ ?_ fl3 hb3
                  · have := dropWhileLenLe (fun x => decide (x = ' ')) rest2
                    simp only [List.length_cons] at hl
                    omega
                  · intro d hd2
                    exact hwf d (List.mem_cons_of_mem _ (List.mem_cons_of_mem _
                      (dropWhile_subset _ rest2 d hd2)))
                rw [splitRuns_cons2, if_pos ⟨rfl, rfl⟩]
                rw [splitWs_cons, if_pos (show isPySpace ' ' = true from rfl)]
                rw [show (' ' :: (rest2.takeWhile (fun x => x = ' ') ++ fl3)).dropWhile
                      isPySpace = fl3 from by
                  rw [List.dropWhile_cons_of_pos (show isPySpace ' ' = true from rfl)]
                  rw [dropWhile_append_of_all isPySpace _ fl3
                    (fun d hd2 => by rw [hsp d hd2]; rfl)]
                  rw [hfl3]
                  exact List.dropWhile_cons_of_neg (by simp [hc3ws])]
                rw [hIH]
                simp [enc_nil]
          · -- single space: l = ' ' :: c2 :: rest2 with c2 ≠ ' '
            rw [build_space_nonspace c2 rest2 hc2, build_true_false c2 rest2 hc2] at hfl
            cases hb : buildFinalLine false (c2 :: rest2) with
            | none => rw [hb] at hfl; simp at hfl
            | some fl' =>
              rw [hb] at hfl
              simp only [Option.map_some'] at hfl
              obtain rfl := (Option.some.inj hfl).symm
              have hIH : splitWs fl' = (splitRuns (c2 :: rest2)).map encodeField := by
                refine ih (c2 :: rest2) ?_ ?_ fl' hb
                · simp only [List.length_cons] at hl ⊢
                  omega
                · exact fun d hd => hwf d (List.mem_cons_of_mem _ hd)
              rw [splitWs_append_nonws dummyValue fl' dummy_no_ws, hIH]
              rw [splitRuns_cons2, if_neg (by simp [hc2])]
              rcases hsr : splitRuns (c2 :: rest2) with _ | ⟨f0, fs⟩
              · exact absurd hsr (splitRuns_ne_nil _)
              · simp [prependF, consF, enc_cons_space]
      · -- copied non-space head
        rw [build_nonspace false c rest hc] at hfl
        cases hb : buildFinalLine false rest with
        | none => rw [hb] at hfl; simp at hfl
        | some fl' =>
          rw [hb] at hfl
          simp only [Option.map_some'] at hfl
          obtain rfl := (Option.some.inj hfl).symm
          have hIH : splitWs fl' = (splitRuns rest).map encodeField := by
            refine ih rest ?_ ?_ fl' hb
            · simp only [List.length_cons] at hl
              omega
            · exact fun d hd => hwf d (List.mem_cons_of_mem _ hd)
          have hcw : isPySpace c = false := by
            rcases hwf c (by simp) with h | h
            · exact absurd h hc
            · exact h
          rw [splitWs_cons, if_neg (by simp [hcw]), hIH]
          rw [splitRuns_cons_nonspace c rest hc]
          rcases hsr : splitRuns rest with _ | ⟨f0, fs⟩
          · exact absurd hsr (splitRuns_ne_nil _)
          · simp [consF, enc_cons_nonspace c f0 hc]

/-- Each claim-side field is a contiguous piece of the line: a prefix match on
the head field lifts to the line, and a sentinel occurrence inside any field
lifts to a sentinel occurrence in the line. -/
theorem splitRuns_fields : ∀ n : Nat, ∀ l : List Char, l.length ≤ n →
    (∀ pat : List Char, isPre pat ((splitRuns l).headD []) = true →
      isPre pat l = true) ∧
    (∀ f ∈ splitRuns l, hasSub dummyValue f = true →
      hasSub dummyValue l = true) := by
  intro n
  induction n with
  | zero =>
    intro l hl
    have hnil : l = [] := List.length_eq_zero.mp (Nat.le_zero.mp hl)
    subst hnil
    rw [splitRuns_nil]
    constructor
    · intro pat h
      simp only [List.headD_cons] at h
      rw [(isPre_nil_right pat).mp h]
      rfl
    · intro f hf hsub
      simp at hf
      rw [hf] at hsub
      exact absurd hsub (by rw [dummy_hasSub_nil]; simp)
  | succ n ih =>
    intro l hl
    match l with
    | [] =>
      rw [splitRuns_nil]
      constructor
      · intro pat h
        simp only [List.headD_cons] at h
        rw [(isPre_nil_right pat).mp h]
        rfl
      · intro f hf hsub
        simp at hf
        rw [hf] at hsub
        exact absurd hsub (by rw [dummy_hasSub_nil]; simp)
    | [c] =>
      rw [splitRuns_single]
      constructor
      · intro pat h
        simpa [consF] using h
      · intro f hf hsub
        simp [consF] at hf
        rw [hf] at hsub
        exact hsub
    | c :: c2 :: rest2 =>
      by_cases hcc : c = ' ' ∧ c2 = ' '
      · rw [splitRuns_cons2, if_pos hcc]
        constructor
        · intro pat h
          simp only [List.headD_cons] at h
          rw [(isPre_nil_right pat).mp h]
          rfl
        · intro f hf hsub
          rcases List.mem_cons.mp hf with rfl | hf'
          · exact absurd hsub (by rw [dummy_hasSub_nil]; simp)
          · have hlen2 : (rest2.dropWhile (fun d => d = ' ')).length ≤ n := by
              have := dropWhileLenLe (fun d => decide (d = ' ')) rest2
              simp only [List.length_cons] at hl
              omega
            have hlift := (ih _ hlen2).2 f hf' hsub
            exact hasSub_cons_of _ c _ (hasSub_cons_of _ c2 _
              (hasSub_dropWhile _ _ rest2 hlift))
      · rw [splitRuns_cons2, if_neg hcc]
        rcases hsr : splitRuns (c2 :: rest2) with _ | ⟨f0, fs⟩
        · exact absurd hsr (splitRuns_ne_nil _)
        · have hlen2 : (c2 :: rest2).length ≤ n := by
            simp only [List.length_cons] at hl ⊢
            omega
          have ihl := ih (c2 :: rest2) hlen2
          have hHP : ∀ pat : List Char, isPre pat (c :: f0) = true →
              isPre pat (c :: c2 :: rest2) = true := by
            intro pat h
            cases pat with
            | nil => rfl
            | cons a as_ =>
              simp only [isPre, Bool.and_eq_true] at h ⊢
              exact ⟨h.1, ihl.1 as_ (by rw [hsr]; simpa using h.2)⟩
          constructor
          · intro pat h
            simp only [consF, List.headD_cons] at h
            exact hHP pat h
          · intro f hf hsub
            simp only [consF] at hf
            rcases List.mem_cons.mp hf with rfl | hf'
            · have hdec : isPre dummyValue (c :: f0) = true ∨
                  hasSub dummyValue f0 = true := by
                cases hx : isPre dummyValue (c :: f0)
                · right
                  simpa [hasSub, hx] using hsub
                · left
                  rfl
              rcases hdec with hx | hx
              · exact hasSub_of_isPre _ _ (hHP dummyValue hx)
              · have hlift : hasSub dummyValue (c2 :: rest2) = true :=
                  ihl.2 f0 (by rw [hsr]; exact List.mem_cons_self f0 fs) hx
                exact hasSub_cons_of _ c _ hlift
            · have hlift : hasSub dummyValue (c2 :: rest2) = true :=
                ihl.2 f (by rw [hsr]; exact List.mem_cons_of_mem f0 hf') hsub
              exact hasSub_cons_of _ c _ hlift

/-- Claim C10 (with the amendments part (b) needs): part (a) - `line_to_list`
raises IndexError exactly on a line whose final character is a space preceded
by a non-space (or absent) character; part (b) - on any other line made of
spaces and non-whitespace characters and not containing the sentinel string
`DUMMY_VALUE`, the result is the field list in which runs of two or more
spaces separate fields and single spaces survive inside their field. -/
theorem claim_C10 (l : List Char) :
    (line_to_list l = none ↔
      ((∃ l1 c, l = l1 ++ [c, ' '] ∧ c ≠ ' ') ∨ l = [' '])) ∧
    ((∀ c ∈ l, c = ' ' ∨ isPySpace c = false) → hasSub dummyValue l = false →
      ∀ r, line_to_list l = some r → r = fieldsSpec l) := by
  constructor
  · rw [line_to_list, Option.map_eq_none']
    rw [buildNone l false]
    simp
  · intro hwf hD r hr
    rw [line_to_list] at hr
    rcases hb : buildFinalLine false l with _ | fl
    · rw [hb] at hr
      simp at hr
    · rw [hb] at hr
      simp only [Option.map_some'] at hr
      obtain rfl := (Option.some.inj hr).symm
      have hsw : splitWs fl = (splitRuns l).map encodeField :=
        splitWs_build l.length l le_rfl hwf fl hb
      rw [pySplit, hsw, fieldsSpec]
      rw [List.filter_map]
      rw [List.map_map]
      have h1 : (splitRuns l).filter ((fun t => !t.isEmpty) ∘ encodeField) =
          (splitRuns l).filter (fun f => !f.isEmpty) := by
        apply List.filter_congr
        intro f _
        simp only [Function.comp_apply]
        rw [enc_isEmpty]
      rw [h1]
      have h2 : ∀ f ∈ (splitRuns l).filter (fun f => !f.isEmpty),
          ((fun t => pyReplace dummyValue [' '] t) ∘ encodeField) f = id f := by
        intro f hf
        have hmem : f ∈ splitRuns l := (List.mem_filter.mp hf).1
        have hns : hasSub dummyValue f = false := by
          cases hx : hasSub dummyValue f
          · rfl
          · have := (splitRuns_fields l.length l le_rfl).2 f hmem hx
            rw [hD] at this
            exact absurd this (by simp)
        simp only [Function.comp_apply, id]
        exact pyReplace_enc f hns
      rw [List.map_congr_left h2, List.map_id]

unseal pyReplace splitWs splitRuns in
/-- Counterexample to claim C10 part (b) as stated: on a line that happens to
contain the sentinel string `DUMMY_VALUE` itself (which has no trailing space,
so the error case does not apply), `line_to_list` returns `[" "]` instead of
the field `["4123kjhgkjhg156298"]`; and a tab character is treated as a field
separator by `final_line.split()` although the claimed field rule only
separates on runs of two or more spaces. -/
theorem claim_C10_cex :
    line_to_list dummyValue = some [[' ']] ∧
    fieldsSpec dummyValue = [dummyValue] ∧
    some [[' ']] ≠ some [dummyValue] ∧
    line_to_list ('a' :: '\t' :: 'b' :: []) = some [['a'], ['b']] ∧
    fieldsSpec ('a' :: '\t' :: 'b' :: []) = [['a', '\t', 'b']] := by
  refine ⟨by decide, by decide, by decide, by decide, by decide⟩

unseal pyReplace splitWs splitRuns in
/-- Witness for claim C10 at a concrete input. -/
theorem claim_C10_witness :
    line_to_list "ab  c d".data = some (fieldsSpec "ab  c d".data) := by
  have h := (claim_C10 "ab  c d".data).2 (by decide) (by decide)
  cases heq : line_to_list "ab  c d".data with
  | none => exact absurd heq (by decide)
  | some r => rw [h r heq]

end SlurmUtils
